import Mathlib

/-!
Verification of the response-caching layer of `src/routes.py`.

The source is a FastAPI route module whose only non-glue logic is:
* a module-level dict `cache` mapping string keys to `(timestamp, value)` pairs
  (line 10), with default expiry `CACHE_EXPIRY = timedelta(minutes=15)` (line 11);
* a decorator `with_cache(expiry)` whose inner `wrapper(*args, **kwargs)`
  (lines 25-40) derives the key `f"{func.__name__}:{str(args)}:{str(kwargs)}"`,
  returns the cached value when `datetime.now() - timestamp < expiry`, and
  otherwise awaits the wrapped function and stores `(datetime.now(), result)`;
* a `clear_cache` endpoint (lines 110-117) that rebinds `cache = {}` and returns
  `{"message": "Cache cleared successfully"}`.

The embedding below models:
* Python argument values as an inductive `PyVal` closed under the shapes the
  claims need (ints, strings, and arbitrary objects carrying the string their
  `__repr__` produces — repr of a Python object is not determined by object
  identity, which is why `pyObj` carries both an identity and a repr string);
* the dict as an association list with CPython update semantics (replace in
  place when the key is present, append otherwise);
* wall-clock time as `Int`.  The wrapper samples `datetime.now()` twice, once
  for the freshness comparison on line 32 and once when storing on line 39, so
  the embedded wrapper takes both sample values (`tCheck`, `tStore`) as
  explicit parameters;
* the wrapped async operation as a function from the call's arguments to
  `Except ε α`: `.ok` is a normal return, `.error` a raised exception, which the
  Python `await` on line 36 propagates before the store on line 39 runs.
-/

/-- Python values appearing as wrapper arguments. `pyObj id r` stands for an
object with identity `id` whose `__str__`/`__repr__` yields `r`; two objects
with different identities are different values but may share a repr.  String
repr is modeled as the unescaped single-quoted form (faithful for strings
without quote or escape characters, which covers every route argument in the
source). -/
inductive PyVal where
  | pyInt : Int → PyVal
  | pyStr : String → PyVal
  | pyObj : Nat → String → PyVal
deriving DecidableEq, Repr

/-- Python `repr` of a value, as used inside `str(args)` / `str(kwargs)`. -/
def PyVal.reprV : PyVal → String
  | .pyInt n => toString n
  | .pyStr s => "\x27" ++ s ++ "\x27"
  | .pyObj _ r => r

abbrev Args := List PyVal

abbrev Kwargs := List (String × PyVal)

/-- Python `str(args)` where `args` is the positional-argument tuple:
`"()"`, `"(x,)"`, or `"(x, y, ...)"` with repr-ed elements. -/
def strTuple (args : Args) : String :=
  match args with
  | [] => "()"
  | [x] => "(" ++ x.reprV ++ ",)"
  | xs => "(" ++ String.intercalate ", " (xs.map PyVal.reprV) ++ ")"

/-- Python `str(kwargs)` where `kwargs` is the keyword-argument dict in
insertion order: `str({}) = "{}"`, otherwise `{'k': v, ...}` with repr-ed
names and values. -/
def strKwargs (kwargs : Kwargs) : String :=
  match kwargs with
  | [] => "\x7b\x7d"
  | _ =>
    "\x7b" ++
      String.intercalate ", "
        (kwargs.map (fun p => "\x27" ++ p.1 ++ "\x27: " ++ p.2.reprV)) ++
      "\x7d"

/-- Line 27: `key = f"{func.__name__}:{str(args)}:{str(kwargs)}"`. -/
def cacheKey (funcName : String) (args : Args) (kwargs : Kwargs) : String :=
  funcName ++ ":" ++ strTuple args ++ ":" ++ strKwargs kwargs

/-- The module-level `cache` dict (line 10): a mapping from string keys to
`(timestamp, value)` entries, embedded as an association list in insertion
order. -/
abbrev Cache (α : Type) := List (String × (Int × α))

/-- Python `cache[key]` lookup / `key in cache` membership (lines 30-31). -/
def dictGet {β : Type} : List (String × β) → String → Option β
  | [], _ => none
  | p :: rest, k => if p.1 = k then some p.2 else dictGet rest k

/-- Python `cache[key] = v` assignment (line 39): CPython replaces the value in
place when the key is present (keeping its position) and appends otherwise. -/
def dictSet {β : Type} : List (String × β) → String → β → List (String × β)
  | [], k, v => [(k, v)]
  | p :: rest, k, v => if p.1 = k then (k, v) :: rest else p :: dictSet rest k v

/-- Line 11: `CACHE_EXPIRY = timedelta(minutes=15)`, in seconds. -/
def CACHE_EXPIRY : Int := 15 * 60

/-- Lines 20-21: `with_cache` substitutes the default expiry when none is
given. -/
def withCacheExpiry (expiry : Option Int) : Int :=
  match expiry with
  | some e => e
  | none => CACHE_EXPIRY

/-- Outcome of one `wrapper` call: the value returned to the caller (or the
exception propagated to it), the cache dict after the call, and whether the
underlying wrapped function was awaited. -/
structure WrapResult (ε α : Type) where
  ret : Except ε α
  cache : Cache α
  invoked : Bool

/-- Lines 35-40 of `wrapper`: await the wrapped function; on normal return
store `(datetime.now(), result)` under `key` and return the result; a raised
exception propagates before the store runs, leaving the cache untouched. -/
def invokeAndStore {ε α : Type} (key : String)
    (func : Args → Kwargs → Except ε α) (tStore : Int) (c : Cache α)
    (args : Args) (kwargs : Kwargs) : WrapResult ε α :=
  match func args kwargs with
  | .ok result =>
    { ret := .ok result, cache := dictSet c key (tStore, result), invoked := true }
  | .error e => { ret := .error e, cache := c, invoked := true }

/-- Shallow embedding of `wrapper` (lines 25-40).  `func` is the behavior of
the wrapped async operation at this call; `tCheck` is the `datetime.now()`
sample of line 32 and `tStore` the sample of line 39 (taken after the await
completes). -/
def wrapper {ε α : Type} (funcName : String) (expiry : Int)
    (func : Args → Kwargs → Except ε α)
    (tCheck tStore : Int) (c : Cache α)
    (args : Args) (kwargs : Kwargs) : WrapResult ε α :=
  match dictGet c (cacheKey funcName args kwargs) with
  | some (timestamp, value) =>
    if tCheck - timestamp < expiry then
      { ret := .ok value, cache := c, invoked := false }
    else
      invokeAndStore (cacheKey funcName args kwargs) func tStore c args kwargs
  | none => invokeAndStore (cacheKey funcName args kwargs) func tStore c args kwargs

/-- The `clear_cache` endpoint (lines 110-117): rebinds the module-level dict
to `{}` and returns the confirmation message. -/
def clear_cache {α : Type} (_c : Cache α) : Cache α × String :=
  ([], "Cache cleared successfully")

/-- The call at `(tCheck, expiry)` will not be served from `c`: any entry under
`key` has age at least `expiry`.  Holds vacuously when the key is absent. -/
def isMiss {α : Type} (c : Cache α) (key : String) (tCheck expiry : Int) : Prop :=
  ∀ timestamp value, dictGet c key = some (timestamp, value) →
    expiry ≤ tCheck - timestamp

/-- Run a sequence of calls (each given by its two `now()` samples) against the
same wrapped operation, threading the cache. -/
def runCalls {ε α : Type} (funcName : String) (expiry : Int)
    (func : Args → Kwargs → Except ε α)
    (args : Args) (kwargs : Kwargs) : Cache α → List (Int × Int) → Cache α
  | c, [] => c
  | c, t :: rest =>
    runCalls funcName expiry func args kwargs
      (wrapper funcName expiry func t.1 t.2 c args kwargs).cache rest

example :
    cacheKey "get_team_profile" [.pyStr "T1"] [] =
      "get_team_profile:(\x27T1\x27,):\x7b\x7d" := by rfl

example :
    cacheKey "get_team_profile" [] [("team_id", .pyStr "T1")] =
      "get_team_profile:():\x7b\x27team_id\x27: \x27T1\x27\x7d" := by rfl

/-! ### Dictionary lemmas -/

theorem dictGet_dictSet_self {β : Type} (c : List (String × β)) (k : String) (v : β) :
    dictGet (dictSet c k v) k = some v := by
  induction c with
  | nil => simp [dictGet, dictSet]
  | cons p rest ih =>
    by_cases h : p.1 = k
    · simp [dictSet, dictGet, h]
    · simp [dictSet, dictGet, h, ih]

theorem dictGet_dictSet_ne {β : Type} (c : List (String × β)) (k k' : String) (v : β)
    (h : k' ≠ k) : dictGet (dictSet c k v) k' = dictGet c k' := by
  induction c with
  | nil => simp [dictGet, dictSet, Ne.symm h]
  | cons p rest ih =>
    by_cases hp : p.1 = k
    · simp [dictSet, dictGet, hp, Ne.symm h]
    · simp [dictSet, dictGet, hp, ih]

theorem dictGet_eq_none_iff {β : Type} (c : List (String × β)) (k : String) :
    dictGet c k = none ↔ k ∉ c.map Prod.fst := by
  induction c with
  | nil => simp [dictGet]
  | cons p rest ih =>
    by_cases h : p.1 = k
    · simp [dictGet, h]
    · simp [dictGet, h, ih, Ne.symm h]

theorem dictSet_map_fst {β : Type} (c : List (String × β)) (k : String) (v : β) :
    (dictSet c k v).map Prod.fst =
      if (dictGet c k).isSome then c.map Prod.fst else c.map Prod.fst ++ [k] := by
  induction c with
  | nil => simp [dictSet, dictGet]
  | cons p rest ih =>
    by_cases h : p.1 = k
    · simp [dictSet, dictGet, h]
    · by_cases h2 : (dictGet rest k).isSome
      · simp [dictSet, dictGet, h, h2, ih]
      · simp [dictSet, dictGet, h, h2, ih]

/-! ### Wrapper reduction lemmas -/

theorem invokeAndStore_ok {ε α : Type} (key : String)
    (func : Args → Kwargs → Except ε α) (ts : Int) (c : Cache α)
    (args : Args) (kwargs : Kwargs) (r : α) (hok : func args kwargs = .ok r) :
    invokeAndStore key func ts c args kwargs =
      { ret := .ok r, cache := dictSet c key (ts, r), invoked := true } := by
  simp [invokeAndStore, hok]

theorem invokeAndStore_error {ε α : Type} (key : String)
    (func : Args → Kwargs → Except ε α) (ts : Int) (c : Cache α)
    (args : Args) (kwargs : Kwargs) (e : ε) (herr : func args kwargs = .error e) :
    invokeAndStore key func ts c args kwargs =
      { ret := .error e, cache := c, invoked := true } := by
  simp [invokeAndStore, herr]

theorem invokeAndStore_invoked {ε α : Type} (key : String)
    (func : Args → Kwargs → Except ε α) (ts : Int) (c : Cache α)
    (args : Args) (kwargs : Kwargs) :
    (invokeAndStore key func ts c args kwargs).invoked = true := by
  cases h : func args kwargs <;> simp [invokeAndStore, h]

theorem wrapper_hit_of_fresh {ε α : Type} (fn : String) (w : Int)
    (func : Args → Kwargs → Except ε α) (t ts : Int) (c : Cache α)
    (args : Args) (kwargs : Kwargs) (t0 : Int) (v : α)
    (hget : dictGet c (cacheKey fn args kwargs) = some (t0, v))
    (hfresh : t - t0 < w) :
    wrapper fn w func t ts c args kwargs =
      { ret := .ok v, cache := c, invoked := false } := by
  simp [wrapper, hget, hfresh]

theorem wrapper_of_isMiss {ε α : Type} (fn : String) (w : Int)
    (func : Args → Kwargs → Except ε α) (t ts : Int) (c : Cache α)
    (args : Args) (kwargs : Kwargs)
    (hmiss : isMiss c (cacheKey fn args kwargs) t w) :
    wrapper fn w func t ts c args kwargs =
      invokeAndStore (cacheKey fn args kwargs) func ts c args kwargs := by
  cases hget : dictGet c (cacheKey fn args kwargs) with
  | none => simp [wrapper, hget]
  | some e =>
    obtain ⟨t0, v⟩ := e
    have hle := hmiss t0 v hget
    simp [wrapper, hget, not_lt.mpr hle]

theorem isMiss_nil {α : Type} (key : String) (t w : Int) :
    isMiss ([] : Cache α) key t w := by
  intro t0 v hget
  simp [dictGet] at hget

theorem isMiss_mono {α : Type} (c : Cache α) (key : String) (t t2 w : Int)
    (h : isMiss c key t w) (hle : t ≤ t2) : isMiss c key t2 w := by
  intro t0 v hget
  have := h t0 v hget
  omega

theorem isMiss_dictSet_self {α : Type} (c : Cache α) (key : String) (ts : Int)
    (r : α) (t w : Int) (h : w ≤ t - ts) :
    isMiss (dictSet c key (ts, r)) key t w := by
  intro t0 v hget
  rw [dictGet_dictSet_self] at hget
  simp only [Option.some.injEq, Prod.mk.injEq] at hget
  obtain ⟨h1, _⟩ := hget
  omega

/-! ### Claim theorems -/

/-- C1: if a successful call stored an entry for a key at timestamp `t1s`,
any later call with the same operation and arguments whose freshness check
happens at `t2` with `t2 - t1s < w` returns the stored value without invoking
the underlying operation — so the two calls invoke it exactly once and return
the same value. -/
theorem hit_within_window {ε α : Type} (fn : String) (w : Int)
    (func : Args → Kwargs → Except ε α) (c : Cache α)
    (args : Args) (kwargs : Kwargs) (t1 t1s t2 t2s : Int) (v : α)
    (hmiss1 : isMiss c (cacheKey fn args kwargs) t1 w)
    (hok : func args kwargs = .ok v)
    (hfresh : t2 - t1s < w) :
    (wrapper fn w func t1 t1s c args kwargs).invoked = true ∧
    (wrapper fn w func t1 t1s c args kwargs).ret = .ok v ∧
    wrapper fn w func t2 t2s (wrapper fn w func t1 t1s c args kwargs).cache
        args kwargs =
      { ret := .ok v,
        cache := (wrapper fn w func t1 t1s c args kwargs).cache,
        invoked := false } := by
  have h1 : wrapper fn w func t1 t1s c args kwargs =
      { ret := .ok v, cache := dictSet c (cacheKey fn args kwargs) (t1s, v),
        invoked := true } := by
    rw [wrapper_of_isMiss _ _ _ _ _ _ _ _ hmiss1]
    exact invokeAndStore_ok _ _ _ _ _ _ v hok
  rw [h1]
  exact ⟨rfl, rfl,
    wrapper_hit_of_fresh _ _ _ _ _ _ _ _ t1s v (dictGet_dictSet_self _ _ _) hfresh⟩

theorem hit_within_window_witness :
    isMiss ([] : Cache Int) (cacheKey "get_teams" [] []) 0 900 ∧
    ((100 : Int) - 0 < 900) ∧
    ((wrapper "get_teams" 900 (fun _ _ => (Except.ok 7 : Except Unit Int))
        0 0 [] [] []).invoked = true ∧
      (wrapper "get_teams" 900 (fun _ _ => (Except.ok 7 : Except Unit Int))
        0 0 [] [] []).ret = Except.ok 7 ∧
      wrapper "get_teams" 900 (fun _ _ => (Except.ok 7 : Except Unit Int)) 100 100
        (wrapper "get_teams" 900 (fun _ _ => (Except.ok 7 : Except Unit Int))
          0 0 [] [] []).cache [] [] =
        { ret := Except.ok 7,
          cache := (wrapper "get_teams" 900
            (fun _ _ => (Except.ok 7 : Except Unit Int)) 0 0 [] [] []).cache,
          invoked := false }) :=
  ⟨isMiss_nil _ _ _, by decide,
    hit_within_window "get_teams" 900 _ [] [] [] 0 0 100 100 7
      (isMiss_nil _ _ _) rfl (by decide)⟩

/-- C3: expiry is a strict less-than comparison on entry age — a call that
finds an entry whose age `t - t0` is exactly the window `w` falls through to
the invoke-and-store branch, i.e. the boundary is exclusive. -/
theorem boundary_age_expired {ε α : Type} (fn : String) (w : Int)
    (func : Args → Kwargs → Except ε α) (t ts : Int) (c : Cache α)
    (args : Args) (kwargs : Kwargs) (t0 : Int) (v : α)
    (hget : dictGet c (cacheKey fn args kwargs) = some (t0, v))
    (hboundary : t - t0 = w) :
    wrapper fn w func t ts c args kwargs =
      invokeAndStore (cacheKey fn args kwargs) func ts c args kwargs ∧
    (wrapper fn w func t ts c args kwargs).invoked = true := by
  have hm : isMiss c (cacheKey fn args kwargs) t w := by
    intro t1 v1 hg
    rw [hget] at hg
    simp only [Option.some.injEq, Prod.mk.injEq] at hg
    obtain ⟨h1, _⟩ := hg
    omega
  refine ⟨wrapper_of_isMiss _ _ _ _ _ _ _ _ hm, ?_⟩
  rw [wrapper_of_isMiss _ _ _ _ _ _ _ _ hm]
  exact invokeAndStore_invoked _ _ _ _ _ _

theorem boundary_age_expired_witness :
    dictGet ([(cacheKey "get_teams" [] [], ((0 : Int), (7 : Int)))])
        (cacheKey "get_teams" [] []) = some (0, 7) ∧
    ((900 : Int) - 0 = 900) ∧
    (wrapper "get_teams" 900 (fun _ _ => (Except.ok 8 : Except Unit Int)) 900 900
        [(cacheKey "get_teams" [] [], (0, 7))] [] []).invoked = true :=
  ⟨by simp [dictGet], by decide,
    (boundary_age_expired "get_teams" 900 _ 900 900 _ [] [] 0 7
      (by simp [dictGet]) (by decide)).2⟩

/-- C4: a failure of the underlying operation is propagated unmodified, the
cache is left exactly as it was (nothing is stored under the key, every other
entry untouched), and a later call with the same arguments invokes the
underlying operation again. -/
theorem failure_propagated_not_cached {ε α : Type} (fn : String) (w : Int)
    (func func2 : Args → Kwargs → Except ε α) (t ts t2 t2s : Int) (c : Cache α)
    (args : Args) (kwargs : Kwargs) (e : ε)
    (herr : func args kwargs = .error e)
    (hmiss : isMiss c (cacheKey fn args kwargs) t w)
    (hlater : t ≤ t2) :
    wrapper fn w func t ts c args kwargs =
      { ret := .error e, cache := c, invoked := true } ∧
    (wrapper fn w func2 t2 t2s c args kwargs).invoked = true := by
  constructor
  · rw [wrapper_of_isMiss _ _ _ _ _ _ _ _ hmiss]
    exact invokeAndStore_error _ _ _ _ _ _ e herr
  · rw [wrapper_of_isMiss _ _ _ _ _ _ _ _ (isMiss_mono _ _ _ _ _ hmiss hlater)]
    exact invokeAndStore_invoked _ _ _ _ _ _

theorem failure_propagated_not_cached_witness :
    isMiss ([] : Cache Int) (cacheKey "get_teams" [] []) 0 900 ∧
    ((0 : Int) ≤ 50) ∧
    (wrapper "get_teams" 900 (fun _ _ => (Except.error "boom" : Except String Int))
        0 0 [] [] [] =
      { ret := Except.error "boom", cache := [], invoked := true } ∧
    (wrapper "get_teams" 900 (fun _ _ => (Except.error "boom" : Except String Int))
        50 50 [] [] []).invoked = true) :=
  ⟨isMiss_nil _ _ _, by decide,
    failure_propagated_not_cached "get_teams" 900 _ _ 0 0 50 50 [] [] [] "boom"
      rfl (isMiss_nil _ _ _) (by decide)⟩

/-- C5: on a miss the wrapper invokes the underlying operation, stores the
successful result under the key with the post-completion timestamp, and
returns it; once the window has elapsed (`w ≤ t2 - t1s`), a further call
invokes the operation a second time and returns the second result, which may
differ from the first (`func1`/`func2` are the operation's behaviors at the
two invocation times). -/
theorem miss_invokes_stores_returns {ε α : Type} (fn : String) (w : Int)
    (func1 func2 : Args → Kwargs → Except ε α) (t1 t1s t2 t2s : Int)
    (c : Cache α) (args : Args) (kwargs : Kwargs) (r1 r2 : α)
    (hmiss : isMiss c (cacheKey fn args kwargs) t1 w)
    (h1 : func1 args kwargs = .ok r1)
    (h2 : func2 args kwargs = .ok r2)
    (hexpired : w ≤ t2 - t1s) :
    wrapper fn w func1 t1 t1s c args kwargs =
      { ret := .ok r1, cache := dictSet c (cacheKey fn args kwargs) (t1s, r1),
        invoked := true } ∧
    wrapper fn w func2 t2 t2s (dictSet c (cacheKey fn args kwargs) (t1s, r1))
        args kwargs =
      { ret := .ok r2,
        cache := dictSet (dictSet c (cacheKey fn args kwargs) (t1s, r1))
          (cacheKey fn args kwargs) (t2s, r2),
        invoked := true } := by
  constructor
  · rw [wrapper_of_isMiss _ _ _ _ _ _ _ _ hmiss]
    exact invokeAndStore_ok _ _ _ _ _ _ r1 h1
  · rw [wrapper_of_isMiss _ _ _ _ _ _ _ _
      (isMiss_dictSet_self _ _ _ _ _ _ hexpired)]
    exact invokeAndStore_ok _ _ _ _ _ _ r2 h2

theorem miss_invokes_stores_returns_witness :
    isMiss ([] : Cache Int) (cacheKey "get_teams" [] []) 0 900 ∧
    ((900 : Int) ≤ 900 - 0) ∧
    (wrapper "get_teams" 900 (fun _ _ => (Except.ok 1 : Except Unit Int))
        0 0 [] [] [] =
      { ret := Except.ok 1,
        cache := dictSet [] (cacheKey "get_teams" [] []) (0, 1),
        invoked := true } ∧
    wrapper "get_teams" 900 (fun _ _ => (Except.ok 2 : Except Unit Int)) 900 900
        (dictSet [] (cacheKey "get_teams" [] []) (0, 1)) [] [] =
      { ret := Except.ok 2,
        cache := dictSet (dictSet [] (cacheKey "get_teams" [] []) (0, 1))
          (cacheKey "get_teams" [] []) (900, 2),
        invoked := true }) :=
  ⟨isMiss_nil _ _ _, by decide,
    miss_invokes_stores_returns "get_teams" 900 _ _ 0 0 900 900 [] [] [] 1 2
      (isMiss_nil _ _ _) rfl rfl (by decide)⟩

/-- C7: `clear_cache` always succeeds and removes every entry: it returns the
fixed confirmation, empties the store (so it is idempotent), and the next call
for any key — including one that was a fresh hit just before — invokes the
underlying operation, whatever the window. -/
theorem clear_cache_resets {ε α : Type} (c : Cache α) (fn : String) (w : Int)
    (func : Args → Kwargs → Except ε α) (t ts : Int)
    (args : Args) (kwargs : Kwargs) :
    (clear_cache c).2 = "Cache cleared successfully" ∧
    (clear_cache c).1 = ([] : Cache α) ∧
    clear_cache (clear_cache c).1 = clear_cache c ∧
    (wrapper fn w func t ts (clear_cache c).1 args kwargs).invoked = true := by
  refine ⟨rfl, rfl, rfl, ?_⟩
  rw [show (clear_cache c).1 = ([] : Cache α) from rfl]
  rw [wrapper_of_isMiss _ _ _ _ _ _ _ _ (isMiss_nil _ _ _)]
  exact invokeAndStore_invoked _ _ _ _ _ _

/-- The store invariant: keys of the association list are pairwise distinct
(what "dict" guarantees structurally in Python). -/
def keysNodup {α : Type} (c : Cache α) : Prop := (c.map Prod.fst).Nodup

theorem dictGet_isSome_absent {β : Type} (c : List (String × β)) (k : String)
    (hs : ¬(dictGet c k).isSome) : k ∉ c.map Prod.fst := by
  refine (dictGet_eq_none_iff c k).mp ?_
  cases hg : dictGet c k with
  | none => rfl
  | some x => rw [hg] at hs; simp at hs

theorem keysNodup_dictSet {β : Type} (c : List (String × β)) (k : String) (v : β)
    (h : (c.map Prod.fst).Nodup) : ((dictSet c k v).map Prod.fst).Nodup := by
  rw [dictSet_map_fst]
  by_cases hs : (dictGet c k).isSome
  · rw [if_pos hs]; exact h
  · rw [if_neg hs, ← List.concat_eq_append]
    exact List.Nodup.concat (dictGet_isSome_absent c k hs) h

theorem count_key_dictSet {β : Type} (c : List (String × β)) (k : String) (v : β)
    (h : (c.map Prod.fst).Nodup) : ((dictSet c k v).map Prod.fst).count k = 1 := by
  rw [dictSet_map_fst]
  by_cases hs : (dictGet c k).isSome
  · rw [if_pos hs]
    have hk : k ∈ c.map Prod.fst := by
      by_contra hk
      rw [(dictGet_eq_none_iff c k).mpr hk] at hs
      simp at hs
    exact List.count_eq_one_of_mem h hk
  · rw [if_neg hs, List.count_append,
      List.count_eq_zero_of_not_mem (dictGet_isSome_absent c k hs)]
    simp

theorem keysNodup_wrapper {ε α : Type} (fn : String) (w : Int)
    (func : Args → Kwargs → Except ε α) (t ts : Int) (c : Cache α)
    (args : Args) (kwargs : Kwargs) (h : keysNodup c) :
    keysNodup (wrapper fn w func t ts c args kwargs).cache := by
  cases hget : dictGet c (cacheKey fn args kwargs) with
  | none =>
    cases hf : func args kwargs with
    | ok r =>
      simp only [wrapper, invokeAndStore, hget, hf]
      exact keysNodup_dictSet _ _ _ h
    | error e => simp only [wrapper, invokeAndStore, hget, hf]; exact h
  | some p =>
    obtain ⟨t0, v⟩ := p
    by_cases hfresh : t - t0 < w
    · simp only [wrapper, hget, if_pos hfresh]; exact h
    · cases hf : func args kwargs with
      | ok r =>
        simp only [wrapper, invokeAndStore, hget, if_neg hfresh, hf]
        exact keysNodup_dictSet _ _ _ h
      | error e =>
        simp only [wrapper, invokeAndStore, hget, if_neg hfresh, hf]
        exact h

/-- C8: the store keeps at most one entry per key — a put on an existing key
is a replacement, never a second entry (the key count after a put is exactly
one, lookups under other keys are untouched), put is total with no error
outcome, and every cache a wrapper call produces keeps the invariant. -/
theorem put_overwrites_single_entry {ε α : Type} (c : Cache α) (k : String)
    (e : Int × α) (h : keysNodup c) :
    keysNodup (dictSet c k e) ∧
    ((dictSet c k e).map Prod.fst).count k = 1 ∧
    dictGet (dictSet c k e) k = some e ∧
    (∀ k', k' ≠ k → dictGet (dictSet c k e) k' = dictGet c k') ∧
    (∀ (fn : String) (w : Int) (func : Args → Kwargs → Except ε α) (t ts : Int)
      (args : Args) (kwargs : Kwargs),
      keysNodup (wrapper fn w func t ts c args kwargs).cache) :=
  ⟨keysNodup_dictSet c k e h, count_key_dictSet c k e h,
    dictGet_dictSet_self c k e,
    fun k' hk' => dictGet_dictSet_ne c k k' e hk',
    fun fn w func t ts args kwargs =>
      keysNodup_wrapper fn w func t ts c args kwargs h⟩

theorem put_overwrites_single_entry_witness :
    keysNodup [("k", ((0 : Int), (1 : Int)))] ∧
    (keysNodup (dictSet [("k", ((0 : Int), (1 : Int)))] "k" (5, 2)) ∧
      ((dictSet [("k", ((0 : Int), (1 : Int)))] "k" (5, 2)).map Prod.fst).count "k" = 1 ∧
      dictGet (dictSet [("k", ((0 : Int), (1 : Int)))] "k" (5, 2)) "k" = some (5, 2) ∧
      (∀ k', k' ≠ "k" →
        dictGet (dictSet [("k", ((0 : Int), (1 : Int)))] "k" (5, 2)) k' =
          dictGet [("k", ((0 : Int), (1 : Int)))] k') ∧
      (∀ (fn : String) (w : Int) (func : Args → Kwargs → Except Unit Int)
        (t ts : Int) (args : Args) (kwargs : Kwargs),
        keysNodup (wrapper fn w func t ts [("k", ((0 : Int), (1 : Int)))]
          args kwargs).cache)) :=
  ⟨by simp [keysNodup],
    put_overwrites_single_entry [("k", ((0 : Int), (1 : Int)))] "k" (5, 2)
      (by simp [keysNodup])⟩

/-- C9: the timestamp stored on a miss is the `datetime.now()` sample taken
after the awaited operation completes (`ts`), not the one taken at the
freshness check (`t`); consequently a later call hits exactly when its check
time is within `w` of the completion time, regardless of how long the fetch
took. -/
theorem timestamp_sampled_after_completion {ε α : Type} (fn : String) (w : Int)
    (func func2 : Args → Kwargs → Except ε α) (t ts : Int) (c : Cache α)
    (args : Args) (kwargs : Kwargs) (r : α)
    (hmiss : isMiss c (cacheKey fn args kwargs) t w)
    (hok : func args kwargs = .ok r) :
    dictGet (wrapper fn w func t ts c args kwargs).cache
        (cacheKey fn args kwargs) = some (ts, r) ∧
    ∀ t2 t2s,
      ((wrapper fn w func2 t2 t2s (wrapper fn w func t ts c args kwargs).cache
          args kwargs).invoked = false ↔ t2 - ts < w) := by
  have h1 : wrapper fn w func t ts c args kwargs =
      { ret := .ok r, cache := dictSet c (cacheKey fn args kwargs) (ts, r),
        invoked := true } := by
    rw [wrapper_of_isMiss _ _ _ _ _ _ _ _ hmiss]
    exact invokeAndStore_ok _ _ _ _ _ _ r hok
  rw [h1]
  refine ⟨dictGet_dictSet_self _ _ _, ?_⟩
  intro t2 t2s
  constructor
  · intro hinv
    by_contra hnf
    push_neg at hnf
    rw [wrapper_of_isMiss _ _ _ _ _ _ _ _
      (isMiss_dictSet_self _ _ _ _ _ _ hnf)] at hinv
    rw [invokeAndStore_invoked] at hinv
    simp at hinv
  · intro hfresh
    rw [wrapper_hit_of_fresh _ _ _ _ _ _ _ _ ts r
      (dictGet_dictSet_self _ _ _) hfresh]

theorem timestamp_sampled_after_completion_witness :
    isMiss ([] : Cache Int) (cacheKey "get_teams" [] []) 0 900 ∧
    dictGet (wrapper "get_teams" 900 (fun _ _ => (Except.ok 7 : Except Unit Int))
        0 5 [] [] []).cache (cacheKey "get_teams" [] []) = some (5, 7) ∧
    ((wrapper "get_teams" 900 (fun _ _ => (Except.ok 8 : Except Unit Int)) 10 10
        (wrapper "get_teams" 900 (fun _ _ => (Except.ok 7 : Except Unit Int))
          0 5 [] [] []).cache [] []).invoked = false ↔ (10 : Int) - 5 < 900) :=
  ⟨isMiss_nil _ _ _,
    (timestamp_sampled_after_completion "get_teams" 900
      (fun _ _ => (Except.ok 7 : Except Unit Int))
      (fun _ _ => (Except.ok 8 : Except Unit Int)) 0 5 [] [] [] 7
      (isMiss_nil _ _ _) rfl).1,
    (timestamp_sampled_after_completion "get_teams" 900
      (fun _ _ => (Except.ok 7 : Except Unit Int))
      (fun _ _ => (Except.ok 8 : Except Unit Int)) 0 5 [] [] [] 7
      (isMiss_nil _ _ _) rfl).2 10 10⟩

/-- C10: a hit is a pure read — any sequence of calls whose freshness checks
all land strictly inside the window leaves the cache mapping exactly as it
was, and in particular the entry keeps its original timestamp (no sliding
expiration). -/
theorem hit_is_pure_read {ε α : Type} (fn : String) (w : Int)
    (func : Args → Kwargs → Except ε α) (c : Cache α)
    (args : Args) (kwargs : Kwargs) (t0 : Int) (v : α)
    (times : List (Int × Int))
    (hget : dictGet c (cacheKey fn args kwargs) = some (t0, v))
    (hall : ∀ p ∈ times, p.1 - t0 < w) :
    runCalls fn w func args kwargs c times = c ∧
    dictGet (runCalls fn w func args kwargs c times) (cacheKey fn args kwargs) =
      some (t0, v) := by
  have hmain : ∀ (ts2 : List (Int × Int)), (∀ p ∈ ts2, p.1 - t0 < w) →
      runCalls fn w func args kwargs c ts2 = c := by
    intro ts2
    induction ts2 with
    | nil => intro _; rfl
    | cons p rest ih =>
      intro hall2
      rw [runCalls, wrapper_hit_of_fresh _ _ _ _ _ _ _ _ t0 v hget
        (hall2 p (List.mem_cons_self _ _))]
      exact ih (fun q hq => hall2 q (List.mem_cons_of_mem _ hq))
  refine ⟨hmain times hall, ?_⟩
  rw [hmain times hall]
  exact hget

theorem hit_is_pure_read_witness :
    dictGet [(cacheKey "get_teams" [] [], ((0 : Int), (7 : Int)))]
        (cacheKey "get_teams" [] []) = some (0, 7) ∧
    (∀ p ∈ [((1 : Int), (1 : Int)), (2, 2), (3, 3)], p.1 - 0 < (900 : Int)) ∧
    (runCalls "get_teams" 900 (fun _ _ => (Except.ok 9 : Except Unit Int)) [] []
        [(cacheKey "get_teams" [] [], (0, 7))] [(1, 1), (2, 2), (3, 3)] =
      [(cacheKey "get_teams" [] [], (0, 7))] ∧
    dictGet (runCalls "get_teams" 900 (fun _ _ => (Except.ok 9 : Except Unit Int))
        [] [] [(cacheKey "get_teams" [] [], (0, 7))] [(1, 1), (2, 2), (3, 3)])
        (cacheKey "get_teams" [] []) = some (0, 7)) :=
  ⟨by simp [dictGet], by decide,
    hit_is_pure_read "get_teams" 900 _ _ [] [] 0 7 [(1, 1), (2, 2), (3, 3)]
      (by simp [dictGet]) (by decide)⟩

/-- C2 counterexample: key derivation is not invariant under call form — the
same argument value `"T1"` supplied positionally versus by the name `team_id`
yields two different cache keys, and the by-name call re-invokes the
underlying operation even though the positional call just cached the same
value. -/
theorem key_not_call_form_invariant :
    cacheKey "get_team_profile" [PyVal.pyStr "T1"] [] ≠
      cacheKey "get_team_profile" [] [("team_id", PyVal.pyStr "T1")] ∧
    (wrapper "get_team_profile" 900 (fun _ _ => (Except.ok 1 : Except Unit Int)) 1 1
      (wrapper "get_team_profile" 900 (fun _ _ => (Except.ok 1 : Except Unit Int))
        0 0 [] [PyVal.pyStr "T1"] []).cache
      [] [("team_id", PyVal.pyStr "T1")]).invoked = true :=
  ⟨by decide, by decide⟩

/-- C2 amended: key derivation is a deterministic function of the operation
name, the positional-argument tuple, and the keyword-argument mapping, but it
does not identify call forms — an argument value passed positionally and the
same value passed by keyword always produce different keys. -/
theorem cacheKey_deterministic_per_call_form (fn s name : String) :
    cacheKey fn [PyVal.pyStr s] [] ≠ cacheKey fn [] [(name, PyVal.pyStr s)] := by
  have e1 : cacheKey fn [PyVal.pyStr s] [] =
      fn ++ ":" ++ ("(" ++ ("\x27" ++ s ++ "\x27") ++ ",)") ++ ":" ++ "\x7b\x7d" := rfl
  have e2 : cacheKey fn [] [(name, PyVal.pyStr s)] =
      fn ++ ":" ++ "()" ++ ":" ++
        ("\x7b" ++ ("\x27" ++ name ++ "\x27: " ++ ("\x27" ++ s ++ "\x27")) ++ "\x7d") := rfl
  rw [e1, e2]
  intro h
  have hlen := congrArg String.length h
  simp only [String.length_append] at hlen
  have l1 : (":" : String).length = 1 := by decide
  have l2 : ("(" : String).length = 1 := by decide
  have l3 : ("\x27" : String).length = 1 := by decide
  have l4 : (",)" : String).length = 2 := by decide
  have l5 : ("\x7b\x7d" : String).length = 2 := by decide
  have l6 : ("()" : String).length = 2 := by decide
  have l7 : ("\x7b" : String).length = 1 := by decide
  have l8 : ("\x27: " : String).length = 3 := by decide
  have l9 : ("\x7d" : String).length = 1 := by decide
  omega

theorem cacheKey_deterministic_per_call_form_witness :
    cacheKey "get_team_profile" [PyVal.pyStr "T2"] [] ≠
      cacheKey "get_team_profile" [] [("team_id", PyVal.pyStr "T2")] :=
  cacheKey_deterministic_per_call_form "get_team_profile" "T2" "team_id"

/-- C6 counterexample: two different argument values (distinct objects whose
`__repr__` both print `X`) produce the same cache key, so the two calls share
one cache entry — the second call is served the first call's value without
invoking the underlying operation. -/
theorem key_collision_on_equal_repr :
    ([PyVal.pyObj 0 "X"] : Args) ≠ [PyVal.pyObj 1 "X"] ∧
    cacheKey "get_teams" [PyVal.pyObj 0 "X"] [] =
      cacheKey "get_teams" [PyVal.pyObj 1 "X"] [] ∧
    (wrapper "get_teams" 900 (fun _ _ => (Except.ok 2 : Except Unit Int)) 1 1
      (wrapper "get_teams" 900 (fun _ _ => (Except.ok 1 : Except Unit Int))
        0 0 [] [PyVal.pyObj 0 "X"] []).cache
      [PyVal.pyObj 1 "X"] []) =
      { ret := Except.ok 1,
        cache := (wrapper "get_teams" 900
          (fun _ _ => (Except.ok 1 : Except Unit Int)) 0 0 [] [PyVal.pyObj 0 "X"] []).cache,
        invoked := false } :=
  ⟨by decide, rfl, rfl⟩

/-- C6 amended: key discrimination holds componentwise, with the other key
components held fixed.  Operations with different names called with identical
positional and keyword arguments never collide; for a fixed operation and
fixed keyword arguments, two calls whose positional tuples stringify
differently never collide; and for a fixed operation and fixed positional
arguments, two calls whose keyword dicts stringify differently never collide.
Nothing stronger holds: distinct argument values with identical string
representations share a key (see the counterexample), and when an argument's
repr contains the key's delimiter text, collisions can even cross components,
so the per-component guarantees cannot be combined disjunctively. -/
theorem cacheKey_discriminates :
    (∀ (fn1 fn2 : String) (args : Args) (kwargs : Kwargs), fn1 ≠ fn2 →
      cacheKey fn1 args kwargs ≠ cacheKey fn2 args kwargs) ∧
    (∀ (fn : String) (args1 args2 : Args) (kwargs : Kwargs),
      strTuple args1 ≠ strTuple args2 →
      cacheKey fn args1 kwargs ≠ cacheKey fn args2 kwargs) ∧
    (∀ (fn : String) (args : Args) (kwargs1 kwargs2 : Kwargs),
      strKwargs kwargs1 ≠ strKwargs kwargs2 →
      cacheKey fn args kwargs1 ≠ cacheKey fn args kwargs2) := by
  refine ⟨?_, ?_, ?_⟩
  · intro fn1 fn2 args kwargs hne h
    apply hne
    apply String.ext
    have hd := congrArg String.data h
    simp only [cacheKey, String.data_append, List.append_assoc] at hd
    exact List.append_cancel_right hd
  · intro fn args1 args2 kwargs hne h
    apply hne
    apply String.ext
    have hd := congrArg String.data h
    simp only [cacheKey, String.data_append, List.append_assoc] at hd
    exact List.append_cancel_right (List.append_cancel_left (List.append_cancel_left hd))
  · intro fn args kwargs1 kwargs2 hne h
    apply hne
    apply String.ext
    have hd := congrArg String.data h
    simp only [cacheKey, String.data_append, List.append_assoc] at hd
    exact List.append_cancel_left (List.append_cancel_left
      (List.append_cancel_left (List.append_cancel_left hd)))

theorem cacheKey_discriminates_witness :
    ("get_teams" : String) ≠ "get_schedule" ∧
    cacheKey "get_teams" [] [] ≠ cacheKey "get_schedule" [] [] :=
  ⟨by decide, cacheKey_discriminates.1 "get_teams" "get_schedule" [] [] (by decide)⟩
